import Mathlib

/-!
Verification of the training-loop helper utilities in
`torchtnt/framework/_loop_utils.py` and of the TensorBoard logger adapter
exercised by `tests/utils/loggers/test_tensorboard.py`.

Python integers are embedded as `Int`, Python `None`-able integers as
`Option Int`, Python dictionaries (which preserve insertion order and have
unique keys) as association lists, and mutable module objects as entries of
an explicit heap indexed by object identity.
-/

/-- Embedding of `torchtnt.utils.progress.Progress`: the counters read by the
loop helpers.  Only the fields used by `_is_done` and `_is_epoch_done` are
modelled. -/
structure Progress where
  num_steps_completed : Int
  num_epochs_completed : Int
  num_steps_completed_in_epoch : Int
  deriving Repr, DecidableEq

/-- Embedding of `_is_done` from `torchtnt/framework/_loop_utils.py`:
`(max_steps is not None and progress.num_steps_completed >= max_steps) or
 (max_epochs is not None and progress.num_epochs_completed >= max_epochs)`. -/
def _is_done (progress : Progress) (max_epochs max_steps : Option Int) : Bool :=
  (match max_steps with
   | some m => decide (progress.num_steps_completed ≥ m)
   | none => false) ||
  (match max_epochs with
   | some m => decide (progress.num_epochs_completed ≥ m)
   | none => false)

/-- Embedding of `_is_epoch_done` from `torchtnt/framework/_loop_utils.py`:
`(max_steps is not None and progress.num_steps_completed >= max_steps) or
 (max_steps_per_epoch is not None and
  progress.num_steps_completed_in_epoch >= max_steps_per_epoch)`. -/
def _is_epoch_done (progress : Progress)
    (max_steps_per_epoch max_steps : Option Int) : Bool :=
  (match max_steps with
   | some m => decide (progress.num_steps_completed ≥ m)
   | none => false) ||
  (match max_steps_per_epoch with
   | some m => decide (progress.num_steps_completed_in_epoch ≥ m)
   | none => false)

/-- C1: for every `Progress` value and every pair of optional maximums,
`_is_done progress max_epochs max_steps` returns true if and only if
(`max_steps` is set and `num_steps_completed ≥ max_steps`) or (`max_epochs`
is set and `num_epochs_completed ≥ max_epochs`); in particular it returns
false when both maximums are `None`, regardless of the counters. -/
theorem C1_is_done_iff (progress : Progress) (max_epochs max_steps : Option Int) :
    (_is_done progress max_epochs max_steps = true ↔
      ((∃ m, max_steps = some m ∧ progress.num_steps_completed ≥ m) ∨
       (∃ m, max_epochs = some m ∧ progress.num_epochs_completed ≥ m))) ∧
    _is_done progress none none = false := by
  constructor
  · cases max_steps <;> cases max_epochs <;> simp [_is_done]
  · rfl

/-- C4: for every `Progress` value and every pair of optional maximums,
`_is_epoch_done progress max_steps_per_epoch max_steps` is exactly a
two-term logical OR over the optional thresholds: true iff (`max_steps` is
set and `num_steps_completed ≥ max_steps`) or (`max_steps_per_epoch` is set
and `num_steps_completed_in_epoch ≥ max_steps_per_epoch`).  The embedding is
a pure function, matching the absence of side effects in the source. -/
theorem C4_is_epoch_done_iff (progress : Progress)
    (max_steps_per_epoch max_steps : Option Int) :
    _is_epoch_done progress max_steps_per_epoch max_steps = true ↔
      ((∃ m, max_steps = some m ∧ progress.num_steps_completed ≥ m) ∨
       (∃ m, max_steps_per_epoch = some m ∧
          progress.num_steps_completed_in_epoch ≥ m)) := by
  cases max_steps <;> cases max_steps_per_epoch <;> simp [_is_epoch_done]

/-!
Module training-mode save/restore.  An `nn.Module` is a mutable Python
object; its identity is modelled as a `Nat` and the mutable `training` flag
of every module lives in a heap `Nat → Bool`.  A `Dict[str, nn.Module]` is
an association list of names and module identities (insertion-ordered, as
Python dictionaries are); two names may alias the same module object.
-/

/-- Heap of module objects: object identity to current `training` flag. -/
abbrev ModHeap : Type := Nat → Bool

/-- Embedding of `module.train(mode)`: writes `mode` into the `training`
flag of the module with identity `i`. -/
def trainUpd (h : ModHeap) (i : Nat) (mode : Bool) : ModHeap :=
  fun j => if j = i then mode else h j

/-- Embedding of `_set_module_training_mode` from
`torchtnt/framework/_loop_utils.py`: iterates the dictionary in order,
records each module's current `training` flag under its name, then calls
`module.train(mode)`.  Returns the final heap and the recorded prior map. -/
def _set_module_training_mode (h : ModHeap) (modules : List (String × Nat))
    (mode : Bool) : ModHeap × List (String × Bool) :=
  match modules with
  | [] => (h, [])
  | (name, mid) :: rest =>
      let prior := h mid
      let res := _set_module_training_mode (trainUpd h mid mode) rest mode
      (res.1, (name, prior) :: res.2)

/-- Embedding of `_reset_module_training_mode` from
`torchtnt/framework/_loop_utils.py`: iterates the dictionary in order and,
when the name is present in `prior_modes`, calls
`module.train(prior_modes[name])`. -/
def _reset_module_training_mode (h : ModHeap) (modules : List (String × Nat))
    (prior_modes : List (String × Bool)) : ModHeap :=
  match modules with
  | [] => h
  | (name, mid) :: rest =>
      let h1 := match prior_modes.lookup name with
        | some b => trainUpd h mid b
        | none => h
      _reset_module_training_mode h1 rest prior_modes

theorem trainUpd_same (h : ModHeap) (i : Nat) (mode : Bool) :
    trainUpd h i mode i = mode := by
  simp [trainUpd]

theorem trainUpd_other (h : ModHeap) (i j : Nat) (mode : Bool) (hne : j ≠ i) :
    trainUpd h i mode j = h j := by
  simp [trainUpd, hne]

/-- With pairwise-distinct module identities, the prior map returned by
`_set_module_training_mode` records, under each name, the flag that module
had before the whole call. -/
theorem set_module_snd_eq (mode : Bool) :
    ∀ (modules : List (String × Nat)) (h : ModHeap),
    (modules.map Prod.snd).Nodup →
    (_set_module_training_mode h modules mode).2 =
      modules.map (fun nm => (nm.1, h nm.2)) := by
  intro modules
  induction modules with
  | nil => intro h _; rfl
  | cons nm rest ih =>
      intro h hnd
      rw [List.map_cons] at hnd
      obtain ⟨hnotin, hrest⟩ := List.nodup_cons.mp hnd
      simp only [_set_module_training_mode, List.map_cons]
      refine congrArg _ ?_
      rw [ih (trainUpd h nm.2 mode) hrest]
      refine List.map_congr_left ?_
      intro a ha
      have hne : a.2 ≠ nm.2 := by
        intro hcontra
        refine hnotin ?_
        rw [← hcontra]
        exact List.mem_map_of_mem Prod.snd ha
      simp [trainUpd_other h nm.2 a.2 mode hne]

/-- After `_set_module_training_mode`, every module identity occurring in
the dictionary holds the new mode (no distinctness needed: the loop only
ever writes `mode`). -/
theorem set_module_fst_mem (mode : Bool) :
    ∀ (modules : List (String × Nat)) (h : ModHeap) (nm : String × Nat),
    nm ∈ modules →
    (_set_module_training_mode h modules mode).1 nm.2 = mode := by
  intro modules
  induction modules with
  | nil => intro h nm hmem; cases hmem
  | cons hd rest ih =>
      intro h nm hmem
      rcases List.mem_cons.mp hmem with heq | hmem'
      · subst heq
        by_cases hin : ∃ x ∈ rest, x.2 = nm.2
        · obtain ⟨x, hx, hx2⟩ := hin
          have := ih (trainUpd h nm.2 mode) x hx
          simpa [_set_module_training_mode, hx2] using this
        · push_neg at hin
          have hfr : ∀ (rest' : List (String × Nat)) (h' : ModHeap) (j : Nat),
              (∀ x ∈ rest', x.2 ≠ j) →
              (_set_module_training_mode h' rest' mode).1 j = h' j := by
            intro rest'
            induction rest' with
            | nil => intro h' j _; rfl
            | cons hd' tl' ih' =>
                intro h' j hall
                simp only [_set_module_training_mode]
                rw [ih' (trainUpd h' hd'.2 mode) j
                  (fun x hx => hall x (List.mem_cons_of_mem hd' hx))]
                exact trainUpd_other h' hd'.2 j mode
                  (fun hj => hall hd' (List.mem_cons_self hd' tl') hj.symm)
          have := hfr rest (trainUpd h nm.2 mode) nm.2 hin
          simp only [_set_module_training_mode]
          rw [this]
          exact trainUpd_same h nm.2 mode
      · exact (by
          simpa [_set_module_training_mode] using
            ih (trainUpd h hd.2 mode) nm hmem')

/-- Heap locations whose identity is not a value of the dictionary are left
unchanged by `_reset_module_training_mode`. -/
theorem reset_module_frame :
    ∀ (modules : List (String × Nat)) (h : ModHeap)
      (prior : List (String × Bool)) (j : Nat),
    (∀ x ∈ modules, x.2 ≠ j) →
    _reset_module_training_mode h modules prior j = h j := by
  intro modules
  induction modules with
  | nil => intro h prior j _; rfl
  | cons hd rest ih =>
      intro h prior j hall
      simp only [_reset_module_training_mode]
      rw [ih _ prior j (fun x hx => hall x (List.mem_cons_of_mem hd hx))]
      cases hlk : prior.lookup hd.1 with
      | none => rfl
      | some b =>
          exact trainUpd_other h hd.2 j b
            (fun hj => hall hd (List.mem_cons_self hd rest) hj.symm)

/-- With pairwise-distinct module identities, `_reset_module_training_mode`
leaves each listed module holding the value that `prior` associates to its
name. -/
theorem reset_module_eval :
    ∀ (modules : List (String × Nat)) (h : ModHeap)
      (prior : List (String × Bool)) (n : String) (m : Nat) (b : Bool),
    (n, m) ∈ modules →
    (modules.map Prod.snd).Nodup →
    prior.lookup n = some b →
    _reset_module_training_mode h modules prior m = b := by
  intro modules
  induction modules with
  | nil => intro h prior n m b hmem _ _; cases hmem
  | cons hd rest ih =>
      intro h prior n m b hmem hnd hlk
      rw [List.map_cons] at hnd
      obtain ⟨hnotin, hrest⟩ := List.nodup_cons.mp hnd
      rcases List.mem_cons.mp hmem with heq | hmem'
      · have hd1 : hd.1 = n := by rw [← heq]
        have hd2 : hd.2 = m := by rw [← heq]
        simp only [_reset_module_training_mode, hd1, hlk]
        have hframe : ∀ x ∈ rest, x.2 ≠ m := by
          intro x hx hcontra
          refine hnotin ?_
          rw [hd2, ← hcontra]
          exact List.mem_map_of_mem Prod.snd hx
        rw [reset_module_frame rest (trainUpd h hd.2 b) prior m hframe, hd2]
        exact trainUpd_same h m b
      · simp only [_reset_module_training_mode]
        exact ih _ prior n m b hmem' hrest hlk

/-- Looking up a name in the recorded prior map: with pairwise-distinct
names, a listed entry's name retrieves exactly that entry's recorded flag. -/
theorem lookup_map_pair (h : ModHeap) :
    ∀ (modules : List (String × Nat)) (n : String) (m : Nat),
    (n, m) ∈ modules →
    (modules.map Prod.fst).Nodup →
    (modules.map (fun nm => (nm.1, h nm.2))).lookup n = some (h m) := by
  intro modules
  induction modules with
  | nil => intro n m hmem _; cases hmem
  | cons hd rest ih =>
      intro n m hmem hnd
      rw [List.map_cons] at hnd
      obtain ⟨hnotin, hrest⟩ := List.nodup_cons.mp hnd
      rcases List.mem_cons.mp hmem with heq | hmem'
      · have hd1 : hd.1 = n := by rw [← heq]
        have hd2 : hd.2 = m := by rw [← heq]
        simp [List.lookup, hd1, hd2]
      · have hne : (n == hd.1) = false := by
          refine beq_false_of_ne ?_
          intro hcontra
          refine hnotin ?_
          rw [hcontra] at hmem'
          exact List.mem_map.mpr ⟨(hd.1, m), hmem', rfl⟩
        simp only [List.map_cons, List.lookup, hne]
        exact ih n m hmem' hrest

/-- C2 counterexample: with the aliased dictionary `{"a": m, "b": m}` (two
names bound to the same module object, identity `0`), an all-`True` initial
heap and mode `False`, the save/restore round trip leaves module `0` with
flag `False`, not its original `True`: the second loop iteration of
`_set_module_training_mode` records the already-overwritten flag, and the
restore replays it last. -/
theorem C2_roundtrip_counterexample :
    _reset_module_training_mode
      (_set_module_training_mode (fun _ => true) [("a", 0), ("b", 0)] false).1
      [("a", 0), ("b", 0)]
      (_set_module_training_mode (fun _ => true) [("a", 0), ("b", 0)] false).2 0
      ≠ (fun _ => true : ModHeap) 0 := by decide

/-- C2 (amended): when distinct names are bound to distinct module objects
(and the dictionary's names are unique, as Python dictionary keys are),
calling `_set_module_training_mode` and then `_reset_module_training_mode`
with the exact map it returned restores every module in the mapping to the
training flag it had before the first call. -/
theorem C2_roundtrip_amended (h : ModHeap) (modules : List (String × Nat))
    (mode : Bool)
    (hnames : (modules.map Prod.fst).Nodup)
    (hids : (modules.map Prod.snd).Nodup) :
    ∀ nm ∈ modules,
      _reset_module_training_mode
        (_set_module_training_mode h modules mode).1 modules
        (_set_module_training_mode h modules mode).2 nm.2 = h nm.2 := by
  intro nm hmem
  rw [set_module_snd_eq mode modules h hids]
  exact reset_module_eval modules _ _ nm.1 nm.2 (h nm.2)
    (by simpa using hmem) hids
    (lookup_map_pair h modules nm.1 nm.2 (by simpa using hmem) hnames)

theorem C2_roundtrip_amended_witness :
    _reset_module_training_mode
      (_set_module_training_mode (fun i => i == 0) [("a", 0), ("b", 1)] false).1
      [("a", 0), ("b", 1)]
      (_set_module_training_mode (fun i => i == 0) [("a", 0), ("b", 1)] false).2 1
      = (fun i => i == 0 : ModHeap) 1 :=
  C2_roundtrip_amended (fun i => i == 0) [("a", 0), ("b", 1)] false
    (by decide) (by decide) ("b", 1) (by decide)

/-- C3 counterexample: with the aliased dictionary `{"a": m, "b": m}`
(module identity `0`, flag initially `True`) and mode `False`, the returned
prior map binds `"b"` to `False`, not to the flag module `0` had immediately
before the call (`True`): the first iteration already overwrote it. -/
theorem C3_prior_map_counterexample :
    ((_set_module_training_mode (fun _ => true) [("a", 0), ("b", 0)] false).2).lookup "b"
      ≠ some ((fun _ => true : ModHeap) 0) := by decide

/-- C3 (amended): after `_set_module_training_mode modules mode`, every
module in the mapping has its training flag equal to `mode`
(unconditionally); and provided distinct names are bound to distinct module
objects, the returned dictionary maps each name to the training flag that
module had immediately before the call. -/
theorem C3_set_module_amended (h : ModHeap) (modules : List (String × Nat))
    (mode : Bool) :
    (∀ nm ∈ modules,
       (_set_module_training_mode h modules mode).1 nm.2 = mode) ∧
    ((modules.map Prod.snd).Nodup →
      (_set_module_training_mode h modules mode).2 =
        modules.map (fun nm => (nm.1, h nm.2))) :=
  ⟨fun nm hmem => set_module_fst_mem mode modules h nm hmem,
   fun hids => set_module_snd_eq mode modules h hids⟩

theorem C3_set_module_amended_witness :
    (_set_module_training_mode (fun i => i == 0) [("a", 0), ("b", 1)] false).1 0 = false ∧
    (_set_module_training_mode (fun i => i == 0) [("a", 0), ("b", 1)] false).2 =
      [("a", true), ("b", false)] :=
  ⟨(C3_set_module_amended (fun i => i == 0) [("a", 0), ("b", 1)] false).1
      ("a", 0) (by decide),
   by
     rw [(C3_set_module_amended (fun i => i == 0) [("a", 0), ("b", 1)] false).2
       (by decide)]
     decide⟩

/-!
Distributed-sampler epoch setting.  The argument of
`_maybe_set_distributed_sampler_epoch` is an arbitrary iterable; a torch
`DataLoader` carries a sampler, which may or may not be a
`DistributedSampler` (whose mutable state here is its stored epoch).  The
embedding returns the possibly-updated iterable together with the recorded
`set_epoch` call, if one was made.
-/

/-- Sampler of a torch `DataLoader`: a `DistributedSampler` with its stored
epoch, or any other sampler (its identity abstracted as a `Nat`). -/
inductive PySampler where
  | distributedSampler (epoch : Int)
  | otherSampler (tag : Nat)
  deriving Repr, DecidableEq

/-- Embedding of a torch `DataLoader`: only the `sampler` attribute read by
the helper is modelled. -/
structure PyDataLoader where
  sampler : PySampler
  deriving Repr, DecidableEq

/-- An iterable passed to `_maybe_set_distributed_sampler_epoch`: a torch
`DataLoader`, or any other iterable (its identity abstracted as a `Nat`). -/
inductive PyIterable where
  | dataLoader (dl : PyDataLoader)
  | otherIterable (tag : Nat)
  deriving Repr, DecidableEq

/-- Embedding of `_maybe_set_distributed_sampler_epoch` from
`torchtnt/framework/_loop_utils.py`: when the iterable is a `DataLoader`
whose sampler is a `DistributedSampler`, call
`sampler.set_epoch(current_epoch)`; otherwise do nothing.  The second
component records the argument of the `set_epoch` call, if any. -/
def _maybe_set_distributed_sampler_epoch (dataloader : PyIterable)
    (current_epoch : Int) : PyIterable × Option Int :=
  match dataloader with
  | .dataLoader dl =>
      match dl.sampler with
      | .distributedSampler _ =>
          (.dataLoader ⟨.distributedSampler current_epoch⟩, some current_epoch)
      | .otherSampler t => (.dataLoader ⟨.otherSampler t⟩, none)
  | .otherIterable t => (.otherIterable t, none)

/-- C10: `_maybe_set_distributed_sampler_epoch dataloader current_epoch`
changes nothing at all (returns the iterable unchanged and makes no
`set_epoch` call) unless the iterable is a `DataLoader` whose sampler is a
`DistributedSampler`; only in that case does it call
`set_epoch current_epoch`.  It is total, hence never raises on other
iterable inputs. -/
theorem C10_maybe_set_sampler_epoch (d : PyIterable) (e : Int) :
    ((¬ ∃ dl ep, d = .dataLoader dl ∧
        dl.sampler = .distributedSampler ep) →
      _maybe_set_distributed_sampler_epoch d e = (d, none)) ∧
    (∀ dl ep, d = .dataLoader dl → dl.sampler = .distributedSampler ep →
      _maybe_set_distributed_sampler_epoch d e =
        (.dataLoader ⟨.distributedSampler e⟩, some e)) := by
  constructor
  · intro hnot
    match d with
    | .otherIterable t => rfl
    | .dataLoader dl =>
        match hs : dl.sampler with
        | .distributedSampler ep => exact absurd ⟨dl, ep, rfl, hs⟩ hnot
        | .otherSampler t =>
            simp [_maybe_set_distributed_sampler_epoch, hs]
            cases dl
            simp_all
  · intro dl ep hd hs
    subst hd
    simp [_maybe_set_distributed_sampler_epoch, hs]

theorem C10_maybe_set_sampler_epoch_witness :
    _maybe_set_distributed_sampler_epoch (.otherIterable 7) 3 =
        (.otherIterable 7, none) ∧
    _maybe_set_distributed_sampler_epoch
        (.dataLoader ⟨.distributedSampler 0⟩) 3 =
        (.dataLoader ⟨.distributedSampler 3⟩, some 3) :=
  ⟨(C10_maybe_set_sampler_epoch (.otherIterable 7) 3).1 (by simp),
   (C10_maybe_set_sampler_epoch (.dataLoader ⟨.distributedSampler 0⟩) 3).2
     ⟨.distributedSampler 0⟩ 0 rfl rfl⟩

/-!
Step-function signature inspection.  `inspect.getfullargspec(step_func)`
yields the function's parameter annotation mapping; what matters to
`_step_requires_iterator` is whether a parameter named `"data"` is
annotated, and, if so, what `typing_extensions.get_origin` of that
annotated type is.  A generic alias such as `Iterator[Batch]` has origin
`collections.abc.Iterator`; a non-generic annotated type has origin `None`.
-/

/-- Embedding of a Python type hint as seen through
`typing_extensions.get_origin`: a generic alias with the shown origin, or a
plain (non-generic) type with origin `None`. -/
inductive TypeAnn where
  | genericAlias (origin : String)
  | plainType (name : String)
  deriving Repr, DecidableEq

/-- Embedding of `typing_extensions.get_origin`. -/
def get_origin : TypeAnn → Option String
  | .genericAlias o => some o
  | .plainType _ => none

/-- Embedding of a step function as seen through
`inspect.getfullargspec`: its mapping from parameter name to type hint. -/
structure StepFunc where
  anns : List (String × TypeAnn)
  deriving Repr, DecidableEq

/-- Embedding of `_step_requires_iterator` from
`torchtnt/framework/_loop_utils.py`.  The first component is the returned
boolean; the second records whether `_logger.warning` was called. -/
def _step_requires_iterator (step_func : StepFunc) : Bool × Bool :=
  match step_func.anns.lookup "data" with
  | none => (false, true)
  | some ty => (get_origin ty == some "collections.abc.Iterator", false)

/-- C5: for every step function whose signature has no parameter annotated
`"data"`, `_step_requires_iterator` logs a warning and returns the safe
default `False` (it is total, hence raises nothing); and it returns `True`
only when a `"data"` hint is present and its generic origin is
`collections.abc.Iterator`. -/
theorem C5_step_requires_iterator (f : StepFunc) :
    (f.anns.lookup "data" = none →
      _step_requires_iterator f = (false, true)) ∧
    ((_step_requires_iterator f).1 = true →
      ∃ ty, f.anns.lookup "data" = some ty ∧
        get_origin ty = some "collections.abc.Iterator") := by
  constructor
  · intro hnone
    simp [_step_requires_iterator, hnone]
  · intro htrue
    match hlk : f.anns.lookup "data" with
    | none => simp [_step_requires_iterator, hlk] at htrue
    | some ty =>
        refine ⟨ty, rfl, ?_⟩
        simp only [_step_requires_iterator, hlk] at htrue
        exact eq_of_beq htrue

theorem C5_step_requires_iterator_witness :
    _step_requires_iterator ⟨[]⟩ = (false, true) ∧
    (∃ ty, (⟨[("data", TypeAnn.genericAlias "collections.abc.Iterator")]⟩ :
        StepFunc).anns.lookup "data" = some ty ∧
      get_origin ty = some "collections.abc.Iterator") :=
  ⟨(C5_step_requires_iterator ⟨[]⟩).1 rfl,
   (C5_step_requires_iterator
      ⟨[("data", TypeAnn.genericAlias "collections.abc.Iterator")]⟩).2 rfl⟩

/-!
TensorBoard logger adapter.  The implementation file
`torchtnt/utils/loggers/tensorboard.py` is not part of the excerpt (only its
test suite is), so the adapter is modelled from the spec: a writer bound to
the given path exists only on the rank elected by the `RANK` environment
variable (zero); each logging call appends one write event to the writer;
`close` flushes and releases the writer, leaving the persisted event log,
which an event accumulator reads back by tag.  Scalar values are embedded
as rationals, text as its list of character code points.
-/

/-- Modelled from the spec: one write event recorded by the underlying
summary writer (`SummaryWriter` of `torchtnt/utils/loggers/tensorboard.py`,
absent from the excerpt). -/
inductive TBWriteEvent where
  | addScalar (tag : String) (value : Rat) (global_step : Nat)
  | addScalarsCall (main_tag : String) (tag_scalar_dict : List (String × Rat))
      (global_step : Nat) (walltime : Rat)
  | addText (tag : String) (stored : List Nat) (global_step : Nat)
  deriving Repr, DecidableEq

/-- Modelled from the spec: the underlying summary writer, bound to a log
directory and holding the events written so far. -/
structure SummaryWriter where
  log_dir : String
  events : List TBWriteEvent
  deriving Repr, DecidableEq

/-- Modelled from the spec: the `TensorBoardLogger` adapter state
(`torchtnt/utils/loggers/tensorboard.py` is absent from the excerpt): the
given path and the optional writer handle. -/
structure TensorBoardLogger where
  path : String
  writer : Option SummaryWriter
  deriving Repr, DecidableEq

/-- Modelled from the spec: `TensorBoardLogger(path=...)` construction.
`rank` is the integer value of the `RANK` environment variable; only rank
zero acquires a writer bound to the path, every other rank holds `None`. -/
def mkTensorBoardLogger (path : String) (rank : Int) : TensorBoardLogger :=
  { path := path
    writer := if rank = 0 then some { log_dir := path, events := [] } else none }

/-- Modelled from the spec: the stored form of a logged text value (the
tensor record's string payload), as the list of character code points. -/
def encodeText (s : String) : List Nat :=
  s.data.map Char.toNat

/-- Modelled from the spec: decoding a stored text payload back to a
string. -/
def decodeText (l : List Nat) : String :=
  ⟨l.map Char.ofNat⟩

/-- Modelled from the spec: `log(tag, value, step)` writes one scalar
record when a writer is held, and silently no-ops otherwise. -/
def TensorBoardLogger.log (lg : TensorBoardLogger) (tag : String)
    (value : Rat) (step : Nat) : TensorBoardLogger :=
  match lg.writer with
  | none => lg
  | some w =>
      let w2 : SummaryWriter :=
        { w with events := w.events ++ [.addScalar tag value step] }
      { lg with writer := some w2 }

/-- Modelled from the spec: `log_scalars(main_tag, mapping, step, walltime)`
forwards its four arguments to the writer's `add_scalars` call when a writer
is held, and silently no-ops otherwise. -/
def TensorBoardLogger.log_scalars (lg : TensorBoardLogger) (main_tag : String)
    (mapping : List (String × Rat)) (step : Nat) (walltime : Rat) :
    TensorBoardLogger :=
  match lg.writer with
  | none => lg
  | some w =>
      let w2 : SummaryWriter :=
        { w with events :=
            w.events ++ [.addScalarsCall main_tag mapping step walltime] }
      { lg with writer := some w2 }

/-- Modelled from the spec: `log_text(tag, text, step)` writes one text
record when a writer is held (the accumulator reads it back under
`tag ++ "/text_summary"`, as the test does), and silently no-ops
otherwise. -/
def TensorBoardLogger.log_text (lg : TensorBoardLogger) (tag : String)
    (text : String) (step : Nat) : TensorBoardLogger :=
  match lg.writer with
  | none => lg
  | some w =>
      let w2 : SummaryWriter :=
        { w with events :=
            w.events ++ [.addText (tag ++ "/text_summary") (encodeText text) step] }
      { lg with writer := some w2 }

/-- Modelled from the spec: `close()` flushes and releases the writer; the
result is the persisted event log left in the directory (empty when no
writer was held, so no file I/O ever happened). -/
def TensorBoardLogger.close (lg : TensorBoardLogger) : List TBWriteEvent :=
  match lg.writer with
  | none => []
  | some w => w.events

/-- Modelled from the spec: the event accumulator's `Tensors(tag)` view of a
persisted log, restricted to scalar records: the (value, step) pairs logged
under `tag`, in write order. -/
def tensorsFor (evlog : List TBWriteEvent) (tag : String) : List (Rat × Nat) :=
  evlog.filterMap fun ev =>
    match ev with
    | .addScalar t v s => if t = tag then some (v, s) else none
    | _ => none

/-- Modelled from the spec: the event accumulator's `Tensors(tag)` view of a
persisted log, restricted to text records: the (stored payload, step) pairs
logged under `tag`, in write order. -/
def textsFor (evlog : List TBWriteEvent) (tag : String) : List (List Nat × Nat) :=
  evlog.filterMap fun ev =>
    match ev with
    | .addText t v s => if t = tag then some (v, s) else none
    | _ => none

/-- A sequence of `log` calls under one tag: `logSeq lg tag entries` logs
each (value, step) pair in order. -/
def logSeq (lg : TensorBoardLogger) (tag : String)
    (entries : List (Rat × Nat)) : TensorBoardLogger :=
  match entries with
  | [] => lg
  | e :: rest => logSeq (lg.log tag e.1 e.2) tag rest

/-- One logging call, for quantifying over arbitrary call sequences. -/
inductive TBOp where
  | opLog (tag : String) (value : Rat) (step : Nat)
  | opLogScalars (main_tag : String) (mapping : List (String × Rat))
      (step : Nat) (walltime : Rat)
  | opLogText (tag : String) (text : String) (step : Nat)
  deriving Repr, DecidableEq

def applyOp (lg : TensorBoardLogger) (op : TBOp) : TensorBoardLogger :=
  match op with
  | .opLog tag v s => lg.log tag v s
  | .opLogScalars mt m s wt => lg.log_scalars mt m s wt
  | .opLogText tag t s => lg.log_text tag t s

def applyOps (lg : TensorBoardLogger) (ops : List TBOp) : TensorBoardLogger :=
  match ops with
  | [] => lg
  | op :: rest => applyOps (applyOp lg op) rest

theorem applyOp_no_writer (lg : TensorBoardLogger) (op : TBOp)
    (h : lg.writer = none) : applyOp lg op = lg := by
  cases op <;>
    simp [applyOp, TensorBoardLogger.log, TensorBoardLogger.log_scalars,
      TensorBoardLogger.log_text, h]

theorem applyOps_no_writer :
    ∀ (ops : List TBOp) (lg : TensorBoardLogger),
    lg.writer = none → applyOps lg ops = lg := by
  intro ops
  induction ops with
  | nil => intro lg _; rfl
  | cons op rest ih =>
      intro lg h
      simp only [applyOps, applyOp_no_writer lg op h]
      exact ih lg h

/-- C6: for every directory path and every call sequence, when the `RANK`
environment variable is a non-zero integer at construction, the adapter's
writer handle is `None`, and no logging call ever changes the instance (so
no file I/O is performed by it). -/
theorem C6_rank_nonzero_no_writer (path : String) (rank : Int)
    (ops : List TBOp) (h : rank ≠ 0) :
    (mkTensorBoardLogger path rank).writer = none ∧
    applyOps (mkTensorBoardLogger path rank) ops =
      mkTensorBoardLogger path rank := by
  have hw : (mkTensorBoardLogger path rank).writer = none := by
    simp [mkTensorBoardLogger, h]
  exact ⟨hw, applyOps_no_writer ops _ hw⟩

theorem C6_rank_nonzero_no_writer_witness :
    (mkTensorBoardLogger "/tmp" 1).writer = none ∧
    applyOps (mkTensorBoardLogger "/tmp" 1)
        [.opLog "test_log" 0 0] = mkTensorBoardLogger "/tmp" 1 :=
  C6_rank_nonzero_no_writer "/tmp" 1 [.opLog "test_log" 0 0] (by decide)

/-- C7: for every main tag, sub-tag mapping, step and walltime,
`log_scalars` hands the underlying summary writer an `add_scalars` record
carrying exactly those four arguments unchanged. -/
theorem C7_log_scalars_forwards (lg : TensorBoardLogger) (w : SummaryWriter)
    (main_tag : String) (mapping : List (String × Rat)) (step : Nat)
    (walltime : Rat) (hw : lg.writer = some w) :
    (lg.log_scalars main_tag mapping step walltime).writer =
      some ⟨w.log_dir,
        w.events ++ [.addScalarsCall main_tag mapping step walltime]⟩ := by
  simp [TensorBoardLogger.log_scalars, hw]

theorem C7_log_scalars_forwards_witness :
    ((mkTensorBoardLogger "/tmp" 0).log_scalars "tnt_metrics"
        [("x", 0), ("y", 1)] 1 2).writer =
      some ⟨"/tmp",
        [] ++ [.addScalarsCall "tnt_metrics" [("x", 0), ("y", 1)] 1 2]⟩ :=
  C7_log_scalars_forwards (mkTensorBoardLogger "/tmp" 0) ⟨"/tmp", []⟩
    "tnt_metrics" [("x", 0), ("y", 1)] 1 2 rfl

/-- Running a sequence of `log` calls on a logger holding a writer appends
one scalar event per call, in order. -/
theorem logSeq_writer :
    ∀ (entries : List (Rat × Nat)) (w : SummaryWriter) (path tag : String),
    logSeq ⟨path, some w⟩ tag entries =
      ⟨path, some ⟨w.log_dir, w.events ++
        entries.map (fun e => .addScalar tag e.1 e.2)⟩⟩ := by
  intro entries
  induction entries with
  | nil => intro w path tag; simp [logSeq]
  | cons e rest ih =>
      intro w path tag
      simp only [logSeq, TensorBoardLogger.log]
      rw [ih]
      simp

/-- Reading back, by tag, a log consisting exactly of the scalar events of
one tag recovers the logged (value, step) pairs in order. -/
theorem tensorsFor_map_self :
    ∀ (entries : List (Rat × Nat)) (tag : String),
    tensorsFor (entries.map (fun e => .addScalar tag e.1 e.2)) tag = entries := by
  intro entries
  induction entries with
  | nil => intro tag; rfl
  | cons e rest ih =>
      intro tag
      have hstep :
          tensorsFor ((e :: rest).map (fun x => TBWriteEvent.addScalar tag x.1 x.2)) tag
            = (e.1, e.2) ::
              tensorsFor (rest.map (fun x => TBWriteEvent.addScalar tag x.1 x.2)) tag := by
        simp [tensorsFor]
      rw [hstep, ih tag]

/-- C8: for every sequence of `log(tag, value, step)` calls with strictly
increasing step values followed by `close()`, reloading the event log
reproduces each logged value at its corresponding step (the witness below
instantiates the spec's scenario: values `i ** 2` for `i` in `0..4` under
tag `"test_log"`). -/
theorem C8_log_roundtrip (path tag : String) (entries : List (Rat × Nat))
    (hmono : entries.Pairwise (fun a b => a.2 < b.2)) :
    tensorsFor ((logSeq (mkTensorBoardLogger path 0) tag entries).close) tag =
      entries := by
  have h0 : mkTensorBoardLogger path 0 = ⟨path, some ⟨path, []⟩⟩ := rfl
  rw [h0, logSeq_writer entries ⟨path, []⟩ path tag]
  simpa [TensorBoardLogger.close] using tensorsFor_map_self entries tag

theorem C8_log_roundtrip_witness :
    tensorsFor ((logSeq (mkTensorBoardLogger "/tmp" 0) "test_log"
        [(0, 0), (1, 1), (4, 2), (9, 3), (16, 4)]).close) "test_log" =
      [(0, 0), (1, 1), (4, 2), (9, 3), (16, 4)] :=
  C8_log_roundtrip "/tmp" "test_log" [(0, 0), (1, 1), (4, 2), (9, 3), (16, 4)]
    (by decide)

/-- Decoding the stored payload of a logged text recovers the original
string. -/
theorem decode_encode (s : String) : decodeText (encodeText s) = s := by
  obtain ⟨data⟩ := s
  simp only [decodeText, encodeText, List.map_map]
  refine congrArg String.mk ?_
  refine (List.map_congr_left ?_).trans (List.map_id data)
  intro c _
  exact Char.ofNat_toNat c

/-- C9: for every string logged with `log_text(tag, text, step)` and then
`close()`, the reloaded event log holds exactly one text record for the
tag, at the original step, and decoding its stored value round-trips to the
original string. -/
theorem C9_log_text_roundtrip (path tag text : String) (step : Nat) :
    textsFor (((mkTensorBoardLogger path 0).log_text tag text step).close)
        (tag ++ "/text_summary") = [(encodeText text, step)] ∧
    decodeText (encodeText text) = text := by
  constructor
  · simp [mkTensorBoardLogger, TensorBoardLogger.log_text,
      TensorBoardLogger.close, textsFor]
  · exact decode_encode text
